import Mathlib

/-!
Verification of the Seed-Hunter repository core:
the `GandalfBreakerNFT` minting contract, the `HintPayment` contract,
the frontend completed-levels state, and the password-verification judge.

Machine integers (`uint256`, `bytes32`, `address`) are modelled as `Nat`;
the EVM keccak256 hash and the secp256k1 `ecrecover` primitive are kept
abstract as function parameters of the operations that use them.
Reverting calls are modelled with `Except`: an `.error` result leaves the
caller's state unchanged (EVM revert semantics).
-/

namespace SeedHunter

/-- Big-endian fixed-width byte encoding of a natural number, as produced by
`abi.encodePacked` for a `w`-byte integer field. -/
def toBytesBE : Nat → Nat → List Nat
  | 0, _ => []
  | w + 1, n => toBytesBE w (n / 256) ++ [n % 256]

/-- Big-endian byte decoding, inverse of `toBytesBE` on in-range inputs. -/
def fromBytesBE (l : List Nat) : Nat := l.foldl (fun a b => a * 256 + b) 0

/-- `abi.encodePacked` encoding of an `address` (20 bytes). -/
def addressBytes (a : Nat) : List Nat := toBytesBE 20 a

/-- `abi.encodePacked` encoding of a `uint256` or `bytes32` (32 bytes). -/
def wordBytes (n : Nat) : List Nat := toBytesBE 32 n

/-- The 28-byte EIP-191 header `"\x19Ethereum Signed Message:\n32"` used by
`MessageHashUtils.toEthSignedMessageHash`. -/
def ethMsgHeader : List Nat :=
  25 :: (("Ethereum Signed Message:".data.map Char.toNat) ++ [10, 51, 50])

/-- `abi.encodePacked(msg.sender, level, nonce, deadline, address(this))`
from `GandalfBreakerNFT.mintWithSignature` (GandalfBreakerNFT.sol, lines 92-98). -/
def mintMessageBytes (sender level nonce deadline contractAddr : Nat) : List Nat :=
  addressBytes sender ++ (wordBytes level ++ (wordBytes nonce ++ (wordBytes deadline ++
    addressBytes contractAddr)))

/-- `MAX_LEVEL` of both contracts. -/
def MAX_LEVEL : Nat := 7

/-- Custom errors of `GandalfBreakerNFT` (revert reasons). -/
inductive MintError where
  | invalidLevel
  | alreadyCompleted
  | signatureExpired
  | nonceAlreadyUsed
  | invalidSignature
  | zeroAddress
  deriving DecidableEq, Repr

/-- Storage of the `GandalfBreakerNFT` contract (plus the ERC721 owner map). -/
structure NFTState where
  signer : Nat
  tokenIdCounter : Nat
  completedLevels : Nat → Nat → Bool
  tokenLevel : Nat → Nat
  tokenCompletedAt : Nat → Nat
  usedNonces : Nat → Bool
  ownerOf : Nat → Option Nat

/-- The storage written by the success path of `mintWithSignature`
(lines 104-117 of GandalfBreakerNFT.sol). -/
def mintSuccState (timestamp : Nat) (s : NFTState) (a_sender a_level a_nonce : Nat) :
    NFTState :=
  { s with
    usedNonces := Function.update s.usedNonces a_nonce true
    completedLevels := fun u l =>
      if u = a_sender ∧ l = a_level then true else s.completedLevels u l
    tokenIdCounter := s.tokenIdCounter + 1
    tokenLevel := Function.update s.tokenLevel s.tokenIdCounter a_level
    tokenCompletedAt := Function.update s.tokenCompletedAt s.tokenIdCounter timestamp
    ownerOf := Function.update s.ownerOf s.tokenIdCounter (some a_sender) }

/-- Arguments of one `mintWithSignature` call, together with its caller. -/
structure MintArgs where
  sender : Nat
  level : Nat
  sig : List Nat
  nonce : Nat
  deadline : Nat

/-- `GandalfBreakerNFT.mintWithSignature` (lines 73-118).  `keccak` is the
keccak256 hash on byte strings and `ecrecover` the ECDSA recovery primitive
(hash and signature bytes to recovered address; OpenZeppelin `ECDSA.recover`
reverting on a malformed signature is modelled as recovering address 0,
which the `signer` comparison then rejects). -/
def mintWithSignature (keccak : List Nat → Nat) (ecrecover : Nat → List Nat → Nat)
    (contractAddr timestamp : Nat) (s : NFTState) (a : MintArgs) :
    Except MintError NFTState :=
  if a.level = 0 ∨ a.level > MAX_LEVEL then .error .invalidLevel
  else if s.completedLevels a.sender a.level then .error .alreadyCompleted
  else if timestamp > a.deadline then .error .signatureExpired
  else if s.usedNonces a.nonce then .error .nonceAlreadyUsed
  else if ecrecover (keccak (ethMsgHeader ++ wordBytes
      (keccak (mintMessageBytes a.sender a.level a.nonce a.deadline contractAddr)))) a.sig
      ≠ s.signer then .error .invalidSignature
  else .ok (mintSuccState timestamp s a.sender a.level a.nonce)

/-- The revert reason of a call result, `none` meaning success. -/
def errOf {ε σ : Type} (r : Except ε σ) : Option ε :=
  match r with
  | .ok _ => none
  | .error e => some e

/-- The caller-visible state after a call: the new state on success, the
unchanged old state on revert. -/
def applyCall {ε σ : Type} (s : σ) (r : Except ε σ) : σ :=
  match r with
  | .ok s2 => s2
  | .error _ => s

/-- State after one `mintWithSignature` transaction (reverts roll back). -/
def applyMint (keccak : List Nat → Nat) (ecrecover : Nat → List Nat → Nat)
    (contractAddr : Nat) (s : NFTState) (c : Nat × MintArgs) : NFTState :=
  applyCall s (mintWithSignature keccak ecrecover contractAddr c.1 s c.2)

/-- State after a sequence of `mintWithSignature` transactions, each given as
a (block timestamp, arguments) pair. -/
def runMint (keccak : List Nat → Nat) (ecrecover : Nat → List Nat → Nat)
    (contractAddr : Nat) (s : NFTState) (calls : List (Nat × MintArgs)) : NFTState :=
  calls.foldl (applyMint keccak ecrecover contractAddr) s

/-- `MAX_HINTS_PER_LEVEL` of `HintPayment`. -/
def MAX_HINTS_PER_LEVEL : Nat := 3

/-- Custom errors of `HintPayment` (revert reasons); `transferFailed` stands
for a revert bubbled up from the ERC20 token during `safeTransferFrom`. -/
inductive HPError where
  | invalidLevel
  | invalidHintIndex
  | alreadyPurchased
  | invalidAmount
  | invalidSignature
  | signatureExpired
  | signatureAlreadyUsed
  | zeroAddress
  | insufficientBalance
  | transferFailed
  deriving DecidableEq, Repr

/-- Storage of the `HintPayment` contract together with the balance map of
the ERC20 payment token (allowances are assumed granted). -/
structure HPState where
  paymentToken : Nat
  treasury : Nat
  priceSigner : Nat
  hintPrices : Nat → Nat → Nat
  purchases : Nat → Nat → Nat → Bool
  usedSignatures : Nat → Bool
  totalCollected : Nat
  balances : Nat → Nat

/-- The default hint prices installed by the `HintPayment` constructor
(lines 79-91 of the source). -/
def defaultPrices : Nat → Nat → Nat := fun level idx =>
  match level, idx with
  | 1, 0 => 1000
  | 1, 1 => 1500
  | 1, 2 => 2000
  | 2, 0 => 2000
  | 2, 1 => 3000
  | 2, 2 => 4000
  | 3, 0 => 5000
  | 3, 1 => 7500
  | 3, 2 => 10000
  | 4, 0 => 10000
  | 4, 1 => 15000
  | 4, 2 => 20000
  | 5, 0 => 15000
  | 5, 1 => 22500
  | 5, 2 => 30000
  | 6, 0 => 20000
  | 6, 1 => 30000
  | 6, 2 => 40000
  | 7, 0 => 30000
  | 7, 1 => 45000
  | 7, 2 => 60000
  | _, _ => 0

/-- The `HintPayment` constructor: rejects any zero address, installs the
default prices.  `bal` is the ERC20 balance map at deployment time. -/
def hpConstructor (paymentToken treasury priceSigner : Nat) (bal : Nat → Nat) :
    Except HPError HPState :=
  if paymentToken = 0 then .error .zeroAddress
  else if treasury = 0 then .error .zeroAddress
  else if priceSigner = 0 then .error .zeroAddress
  else .ok
    { paymentToken := paymentToken
      treasury := treasury
      priceSigner := priceSigner
      hintPrices := defaultPrices
      purchases := fun _ _ _ => false
      usedSignatures := fun _ => false
      totalCollected := 0
      balances := bal }

/-- `HintPayment._processPurchase`: `safeTransferFrom(buyer, address(this))`
(reverting when the buyer's balance is insufficient), then record the
purchase and the collected total. -/
def processPurchase (contractAddr : Nat) (s : HPState)
    (buyer level hintIndex amount : Nat) : Except HPError HPState :=
  if s.balances buyer < amount then .error .transferFailed
  else .ok
    { s with
      balances :=
        (Function.update (Function.update s.balances buyer (s.balances buyer - amount))
          contractAddr
          ((Function.update s.balances buyer (s.balances buyer - amount)) contractAddr + amount))
      purchases := fun u l i =>
        if u = buyer ∧ l = level ∧ i = hintIndex then true else s.purchases u l i
      totalCollected := s.totalCollected + amount }

/-- `HintPayment.payForHint` (fixed price), including `_validatePurchase`. -/
def payForHint (contractAddr : Nat) (s : HPState) (sender level hintIndex : Nat) :
    Except HPError HPState :=
  if level = 0 ∨ level > MAX_LEVEL then .error .invalidLevel
  else if hintIndex ≥ MAX_HINTS_PER_LEVEL then .error .invalidHintIndex
  else if s.purchases sender level hintIndex then .error .alreadyPurchased
  else if s.hintPrices level hintIndex = 0 then .error .invalidAmount
  else processPurchase contractAddr s sender level hintIndex (s.hintPrices level hintIndex)

/-- `abi.encodePacked(msg.sender, level, hintIndex, negotiatedPrice, deadline,
address(this))` from `payForHintWithNegotiatedPrice` (lines 131-138). -/
def hintMessageBytes (sender level hintIndex price deadline contractAddr : Nat) : List Nat :=
  addressBytes sender ++ (wordBytes level ++ (wordBytes hintIndex ++ (wordBytes price ++
    (wordBytes deadline ++ addressBytes contractAddr))))

/-- `HintPayment._recover` (lines 264-281): total for every byte string; a
signature that is not 65 bytes long, or whose recovery id (after adding 27
when below 27) is neither 27 nor 28, yields address 0.  `ecrecover4` is the
EVM `ecrecover(hash, v, r, s)` precompile. -/
def hpRecover (ecrecover4 : Nat → Nat → Nat → Nat → Nat) (hash : Nat) (sig : List Nat) :
    Nat :=
  if sig.length ≠ 65 then 0
  else if (if sig.getD 64 0 < 27 then sig.getD 64 0 + 27 else sig.getD 64 0) ≠ 27 ∧
      (if sig.getD 64 0 < 27 then sig.getD 64 0 + 27 else sig.getD 64 0) ≠ 28 then 0
  else ecrecover4 hash
    (if sig.getD 64 0 < 27 then sig.getD 64 0 + 27 else sig.getD 64 0)
    (fromBytesBE (sig.take 32)) (fromBytesBE ((sig.drop 32).take 32))

/-- `HintPayment.payForHintWithNegotiatedPrice` (lines 118-153). -/
def payForHintWithNegotiatedPrice (keccak : List Nat → Nat)
    (ecrecover4 : Nat → Nat → Nat → Nat → Nat) (contractAddr timestamp : Nat)
    (s : HPState) (sender level hintIndex price deadline : Nat) (sig : List Nat) :
    Except HPError HPState :=
  if level = 0 ∨ level > MAX_LEVEL then .error .invalidLevel
  else if hintIndex ≥ MAX_HINTS_PER_LEVEL then .error .invalidHintIndex
  else if s.purchases sender level hintIndex then .error .alreadyPurchased
  else if timestamp > deadline then .error .signatureExpired
  else if s.usedSignatures
      (keccak (hintMessageBytes sender level hintIndex price deadline contractAddr)) then
    .error .signatureAlreadyUsed
  else if hpRecover ecrecover4
      (keccak (ethMsgHeader ++ wordBytes
        (keccak (hintMessageBytes sender level hintIndex price deadline contractAddr)))) sig
      ≠ s.priceSigner then .error .invalidSignature
  else processPurchase contractAddr
    { s with usedSignatures := (Function.update s.usedSignatures
        (keccak (hintMessageBytes sender level hintIndex price deadline contractAddr)) true) }
    sender level hintIndex price

/-- `HintPayment.setHintPrices` (owner only). -/
def setHintPrices (s : HPState) (level p0 p1 p2 : Nat) : Except HPError HPState :=
  if level = 0 ∨ level > MAX_LEVEL then .error .invalidLevel
  else .ok
    { s with hintPrices := fun l i =>
        if l = level then
          (if i = 0 then p0 else if i = 1 then p1 else if i = 2 then p2 else s.hintPrices l i)
        else s.hintPrices l i }

/-- `HintPayment.setTreasury` (owner only): rejects the zero address. -/
def setTreasury (s : HPState) (a : Nat) : Except HPError HPState :=
  if a = 0 then .error .zeroAddress else .ok { s with treasury := a }

/-- `HintPayment.setPriceSigner` (owner only): rejects the zero address. -/
def setPriceSigner (s : HPState) (a : Nat) : Except HPError HPState :=
  if a = 0 then .error .zeroAddress else .ok { s with priceSigner := a }

/-- `HintPayment.withdraw` (owner only): sends the contract's whole token
balance to the treasury. -/
def hpWithdraw (contractAddr : Nat) (s : HPState) : Except HPError HPState :=
  if s.balances contractAddr = 0 then .error .insufficientBalance
  else .ok
    { s with balances :=
        (Function.update (Function.update s.balances contractAddr 0) s.treasury
          ((Function.update s.balances contractAddr 0) s.treasury +
            s.balances contractAddr)) }

/-- One external transaction on the `HintPayment` contract. -/
inductive HPOp where
  | pay (timestamp sender level hintIndex : Nat)
  | payNeg (timestamp sender level hintIndex price deadline : Nat) (sig : List Nat)
  | setPrices (level p0 p1 p2 : Nat)
  | newTreasury (a : Nat)
  | newPriceSigner (a : Nat)
  | withdrawAll

/-- State after one `HintPayment` transaction (reverts roll back). -/
def hpApply (keccak : List Nat → Nat) (ecrecover4 : Nat → Nat → Nat → Nat → Nat)
    (contractAddr : Nat) (s : HPState) : HPOp → HPState
  | .pay _ sender level hintIndex =>
    applyCall s (payForHint contractAddr s sender level hintIndex)
  | .payNeg timestamp sender level hintIndex price deadline sig =>
    applyCall s (payForHintWithNegotiatedPrice keccak ecrecover4 contractAddr timestamp s
      sender level hintIndex price deadline sig)
  | .setPrices level p0 p1 p2 => applyCall s (setHintPrices s level p0 p1 p2)
  | .newTreasury a => applyCall s (setTreasury s a)
  | .newPriceSigner a => applyCall s (setPriceSigner s a)
  | .withdrawAll => applyCall s (hpWithdraw contractAddr s)

/-- State after a sequence of `HintPayment` transactions. -/
def hpRun (keccak : List Nat → Nat) (ecrecover4 : Nat → Nat → Nat → Nat → Nat)
    (contractAddr : Nat) (s : HPState) (ops : List HPOp) : HPState :=
  ops.foldl (hpApply keccak ecrecover4 contractAddr) s

/-- The `HintPayment` states reachable from a successful deployment through
any sequence of transactions. -/
def HPReachable (keccak : List Nat → Nat) (ecrecover4 : Nat → Nat → Nat → Nat → Nat)
    (contractAddr : Nat) (s : HPState) : Prop :=
  ∃ paymentToken treasury priceSigner bal s0 ops,
    hpConstructor paymentToken treasury priceSigner bal = .ok s0 ∧
    s = hpRun keccak ecrecover4 contractAddr s0 ops

/-- A concrete keccak256 stand-in for witnesses. -/
def cK : List Nat → Nat := fun _ => 0

/-- A concrete ecrecover stand-in for witnesses: every signature recovers
address 5. -/
def cE : Nat → List Nat → Nat := fun _ _ => 5

/-- A concrete freshly deployed `GandalfBreakerNFT` storage with signer 5. -/
def cState : NFTState :=
  { signer := 5
    tokenIdCounter := 0
    completedLevels := fun _ _ => false
    tokenLevel := fun _ => 0
    tokenCompletedAt := fun _ => 0
    usedNonces := fun _ => false
    ownerOf := fun _ => none }

/-- A concrete mint call: caller 1, level 1, nonce 3, deadline 10. -/
def cA : MintArgs := { sender := 1, level := 1, sig := [], nonce := 3, deadline := 10 }

/-- A concrete mint call reusing nonce 3, with out-of-range level 0. -/
def cB : MintArgs := { sender := 2, level := 0, sig := [], nonce := 3, deadline := 10 }

/-- A concrete mint call by caller 2 reusing nonce 3 with a valid level. -/
def cB2 : MintArgs := { sender := 2, level := 1, sig := [], nonce := 3, deadline := 10 }

/-- A concrete mint call by caller 1 for level 1 again, with a fresh nonce. -/
def cB3 : MintArgs := { sender := 1, level := 1, sig := [], nonce := 4, deadline := 10 }

/-- A concrete ecrecover(hash, v, r, s) stand-in for witnesses: every valid
signature recovers address 3. -/
def cE4 : Nat → Nat → Nat → Nat → Nat := fun _ _ _ _ => 3

/-- The concrete `HintPayment` storage deployed with token 1, treasury 2,
price signer 3 and an empty token balance map. -/
def hpS0 : HPState :=
  { paymentToken := 1
    treasury := 2
    priceSigner := 3
    hintPrices := defaultPrices
    purchases := fun _ _ _ => false
    usedSignatures := fun _ => false
    totalCollected := 0
    balances := fun _ => 0 }

/-- `GandalfBreakerNFT.getTier` (lines 141-146): cosmetic tier banding. -/
def getTier (level : Nat) : String :=
  if level ≤ 2 then "Bronze"
  else if level ≤ 4 then "Silver"
  else if level ≤ 6 then "Gold"
  else "Platinum"

/-- The `totalLevels` constant of the frontend `App` component. -/
def totalLevels : Nat := 7

/-- Worker for first-occurrence deduplication. -/
def dedupFirstAux (acc : List Int) : List Int → List Int
  | [] => acc
  | v :: vs => if v ∈ acc then dedupFirstAux acc vs else dedupFirstAux (acc ++ [v]) vs

/-- First-occurrence deduplication, as `Array.from(new Set(list))` performs
in JavaScript. -/
def dedupFirst (l : List Int) : List Int := dedupFirstAux [] l

/-- Ascending numeric sort, as `.sort((a, b) => a - b)` performs on a
JavaScript array of numbers. -/
def sortAsc (l : List Int) : List Int := List.insertionSort (· ≤ ·) l

/-- The initializer of the frontend `completedLevels` state (App.jsx): the
value stored under `gandalf:completedLevels` is parsed, coerced elementwise
with `Number`, filtered to the integers in `1..totalLevels`, deduplicated and
sorted ascending; any failure yields the empty list.  Each array element is
abstracted by its `Number(v)` coercion: `some n` when `Number(v)` is the
integer `n`, `none` otherwise; `raw = none` models a missing key, a JSON
parse failure, or a non-array value. -/
def loadCompleted (raw : Option (List (Option Int))) : List Int :=
  match raw with
  | none => []
  | some parsed =>
    sortAsc (dedupFirst (parsed.filterMap (fun v => v.bind (fun n =>
      if 1 ≤ n ∧ n ≤ (totalLevels : Int) then some n else none))))

/-- The success-path updater of `completedLevels` in `handleSubmit`:
`prev.includes(level) ? prev : [...prev, level].sort((a, b) => a - b)`. -/
def updateCompleted (prev : List Int) (level : Int) : List Int :=
  if level ∈ prev then prev else sortAsc (prev ++ [level])

/-- The invariant of the frontend `completedLevels` state: strictly
ascending (hence duplicate-free) and within `1..totalLevels`. -/
def completedInv (l : List Int) : Prop :=
  l.Sorted (· < ·) ∧ ∀ x ∈ l, 1 ≤ x ∧ x ≤ (totalLevels : Int)

/-- ASCII whitespace recognizer used for trimming submissions. -/
def isSpaceChar (c : Char) : Bool := c = ' ' ∨ c = '\t' ∨ c = '\n' ∨ c = '\r'

/-- Trim leading and trailing whitespace from a character list. -/
def trimChars (l : List Char) : List Char :=
  ((l.dropWhile isSpaceChar).reverse.dropWhile isSpaceChar).reverse

/-- Uppercase one ASCII character. -/
def upChar (c : Char) : Char :=
  if 'a' ≤ c ∧ c ≤ 'z' then Char.ofNat (c.toNat - 32) else c

/-- Normalization of a submitted guess: trim whitespace, then uppercase. -/
def normalizeGuess (l : List Char) : List Char := (trimChars l).map upChar

/-- The sentinel master-override keyword. -/
def sparkWord : List Char := ['S', 'P', 'A', 'R', 'K']

/-- Error raised by the judge on an out-of-range level. -/
inductive JudgeError where
  | invalidLevel
  deriving DecidableEq, Repr

/-- Modelled from the spec: the backend `verify_password` of
`backend/judge.py` is absent from the repository snapshot (only its design
documentation is present), so it is modelled from spec sections 4.3-4.4:
validate the level against the registry range, normalize the submission
(trim whitespace, uppercase), accept the sentinel keyword unconditionally,
and otherwise compare with the uppercase-normalized canonical secret of the
level for exact equality.  `secrets` is the secret registry. -/
def verify_password (secrets : Nat → List Char) (level : Nat) (guess : List Char) :
    Except JudgeError Bool :=
  if level = 0 ∨ level > MAX_LEVEL then .error .invalidLevel
  else if normalizeGuess guess = sparkWord then .ok true
  else if normalizeGuess guess = (secrets level).map upChar then .ok true
  else .ok false

/-- A concrete secret registry for witnesses: every level's secret is
"MAGIC". -/
def cSecrets : Nat → List Char := fun _ => ['M', 'A', 'G', 'I', 'C']

/-- Success characterization of `mintWithSignature`: the call does not revert
exactly when all five checks of the contract pass. -/
theorem mint_ok_iff (keccak : List Nat → Nat) (ecrecover : Nat → List Nat → Nat)
    (contractAddr timestamp : Nat) (s : NFTState) (a : MintArgs) :
    errOf (mintWithSignature keccak ecrecover contractAddr timestamp s a) = none ↔
      (1 ≤ a.level ∧ a.level ≤ MAX_LEVEL ∧
       s.completedLevels a.sender a.level = false ∧
       timestamp ≤ a.deadline ∧
       s.usedNonces a.nonce = false ∧
       ecrecover (keccak (ethMsgHeader ++ wordBytes
         (keccak (mintMessageBytes a.sender a.level a.nonce a.deadline contractAddr)))) a.sig
         = s.signer) := by
  unfold mintWithSignature
  split_ifs with h1 h2 h3 h4 h5 <;> simp only [errOf, MAX_LEVEL] at *
  · simp only [reduceCtorEq, false_iff]
    rintro ⟨c1, c2, -⟩
    omega
  · simp only [reduceCtorEq, false_iff]
    rintro ⟨-, -, c3, -⟩
    simp [c3] at h2
  · simp only [reduceCtorEq, false_iff]
    rintro ⟨-, -, -, c4, -⟩
    omega
  · simp only [reduceCtorEq, false_iff]
    rintro ⟨-, -, -, -, c5, -⟩
    simp [c5] at h4
  · simp only [reduceCtorEq, false_iff]
    rintro ⟨-, -, -, -, -, c6⟩
    exact h5 c6
  · simp only [true_iff]
    refine ⟨by omega, by omega, by simpa using h2, by omega, by simpa using h4,
      by simpa using h5⟩

/-- A successful `mintWithSignature` returns exactly the success-path state. -/
theorem mint_eq_ok_elim {keccak : List Nat → Nat} {ecrecover : Nat → List Nat → Nat}
    {contractAddr timestamp : Nat} {s s2 : NFTState} {a : MintArgs}
    (hyp : mintWithSignature keccak ecrecover contractAddr timestamp s a = .ok s2) :
    s2 = mintSuccState timestamp s a.sender a.level a.nonce := by
  unfold mintWithSignature at hyp
  split_ifs at hyp <;> simp_all

/-- One transaction never clears a used-nonce mark. -/
theorem applyMint_usedNonces_mono {keccak : List Nat → Nat} {ecrecover : Nat → List Nat → Nat}
    {contractAddr : Nat} {s : NFTState} {tc : Nat × MintArgs} {n : Nat}
    (h : s.usedNonces n = true) :
    (applyMint keccak ecrecover contractAddr s tc).usedNonces n = true := by
  unfold applyMint applyCall
  split
  · next s2 heq =>
    rw [mint_eq_ok_elim heq]
    unfold mintSuccState
    simp only [Function.update_apply]
    split <;> simp_all
  · exact h

/-- One transaction never clears a completion mark. -/
theorem applyMint_completed_mono {keccak : List Nat → Nat} {ecrecover : Nat → List Nat → Nat}
    {contractAddr : Nat} {s : NFTState} {tc : Nat × MintArgs} {u l : Nat}
    (h : s.completedLevels u l = true) :
    (applyMint keccak ecrecover contractAddr s tc).completedLevels u l = true := by
  unfold applyMint applyCall
  split
  · next s2 heq =>
    rw [mint_eq_ok_elim heq]
    unfold mintSuccState
    simp only
    split <;> simp_all
  · exact h

/-- No sequence of transactions ever clears a used-nonce mark. -/
theorem runMint_usedNonces_mono {keccak : List Nat → Nat} {ecrecover : Nat → List Nat → Nat}
    {contractAddr : Nat} (calls : List (Nat × MintArgs)) {s : NFTState} {n : Nat}
    (h : s.usedNonces n = true) :
    (runMint keccak ecrecover contractAddr s calls).usedNonces n = true := by
  induction calls generalizing s with
  | nil => exact h
  | cons hd tl ih =>
    simp only [runMint, List.foldl_cons] at *
    exact ih (applyMint_usedNonces_mono h)

/-- No sequence of transactions ever clears a completion mark. -/
theorem runMint_completed_mono {keccak : List Nat → Nat} {ecrecover : Nat → List Nat → Nat}
    {contractAddr : Nat} (calls : List (Nat × MintArgs)) {s : NFTState} {u l : Nat}
    (h : s.completedLevels u l = true) :
    (runMint keccak ecrecover contractAddr s calls).completedLevels u l = true := by
  induction calls generalizing s with
  | nil => exact h
  | cons hd tl ih =>
    simp only [runMint, List.foldl_cons] at *
    exact ih (applyMint_completed_mono h)

/-- After a successful mint, the post-state is the success-path state. -/
theorem applyMint_of_ok {keccak : List Nat → Nat} {ecrecover : Nat → List Nat → Nat}
    {contractAddr timestamp : Nat} {s : NFTState} {a : MintArgs}
    (h : errOf (mintWithSignature keccak ecrecover contractAddr timestamp s a) = none) :
    applyMint keccak ecrecover contractAddr s (timestamp, a) =
      mintSuccState timestamp s a.sender a.level a.nonce := by
  unfold applyMint applyCall
  simp only
  split
  · next s2 heq => exact mint_eq_ok_elim heq
  · next e heq => rw [heq] at h; simp [errOf] at h

/-- A call whose nonce is already marked used reverts with `NonceAlreadyUsed`
whenever the three checks before the nonce check pass. -/
theorem mint_usedNonce_error {keccak : List Nat → Nat} {ecrecover : Nat → List Nat → Nat}
    {contractAddr timestamp : Nat} {s : NFTState} {a : MintArgs}
    (hl1 : 1 ≤ a.level) (hl2 : a.level ≤ MAX_LEVEL)
    (hc : s.completedLevels a.sender a.level = false)
    (hd : timestamp ≤ a.deadline)
    (h : s.usedNonces a.nonce = true) :
    errOf (mintWithSignature keccak ecrecover contractAddr timestamp s a) =
      some MintError.nonceAlreadyUsed := by
  unfold mintWithSignature MAX_LEVEL at *
  split_ifs with h1 h2 h3 h4 <;> first
    | rfl
    | omega
    | simp_all [errOf]

/-- A call for an already-completed (caller, level) pair reverts with
`AlreadyCompleted` whenever the level check passes. -/
theorem mint_completed_error {keccak : List Nat → Nat} {ecrecover : Nat → List Nat → Nat}
    {contractAddr timestamp : Nat} {s : NFTState} {a : MintArgs}
    (hl1 : 1 ≤ a.level) (hl2 : a.level ≤ MAX_LEVEL)
    (hc : s.completedLevels a.sender a.level = true) :
    errOf (mintWithSignature keccak ecrecover contractAddr timestamp s a) =
      some MintError.alreadyCompleted := by
  unfold mintWithSignature MAX_LEVEL at *
  split_ifs with h1 h2 <;> first
    | rfl
    | omega
    | simp_all [errOf]

/-- Claim C1: `mintWithSignature(level, signature, nonce, deadline)` succeeds
iff the level is in 1..7, the caller has not completed that level, the block
timestamp is at most the deadline, the nonce is unused, and the recovered
signer equals the configured signer; on success it marks the nonce used,
records the caller's completion, and mints one token to the caller; past the
deadline the call always fails, with `SignatureExpired` when the preceding
checks pass. -/
theorem mintWithSignature_correct (keccak : List Nat → Nat) (ecrecover : Nat → List Nat → Nat)
    (contractAddr timestamp : Nat) (s : NFTState) (a : MintArgs) :
    (errOf (mintWithSignature keccak ecrecover contractAddr timestamp s a) = none ↔
      (1 ≤ a.level ∧ a.level ≤ MAX_LEVEL ∧
       s.completedLevels a.sender a.level = false ∧
       timestamp ≤ a.deadline ∧
       s.usedNonces a.nonce = false ∧
       ecrecover (keccak (ethMsgHeader ++ wordBytes
         (keccak (mintMessageBytes a.sender a.level a.nonce a.deadline contractAddr)))) a.sig
         = s.signer)) ∧
    (errOf (mintWithSignature keccak ecrecover contractAddr timestamp s a) = none →
      ((applyMint keccak ecrecover contractAddr s (timestamp, a)).usedNonces a.nonce = true ∧
       (applyMint keccak ecrecover contractAddr s
         (timestamp, a)).completedLevels a.sender a.level = true ∧
       (applyMint keccak ecrecover contractAddr s
         (timestamp, a)).ownerOf s.tokenIdCounter = some a.sender ∧
       (applyMint keccak ecrecover contractAddr s
         (timestamp, a)).tokenIdCounter = s.tokenIdCounter + 1)) ∧
    (a.deadline < timestamp →
      errOf (mintWithSignature keccak ecrecover contractAddr timestamp s a) ≠ none) ∧
    (1 ≤ a.level → a.level ≤ MAX_LEVEL → s.completedLevels a.sender a.level = false →
     a.deadline < timestamp →
      errOf (mintWithSignature keccak ecrecover contractAddr timestamp s a) =
        some MintError.signatureExpired) := by
  refine ⟨mint_ok_iff keccak ecrecover contractAddr timestamp s a, ?_, ?_, ?_⟩
  · intro hok
    rw [applyMint_of_ok hok]
    unfold mintSuccState
    simp [Function.update]
  · intro hd hcontra
    rw [mint_ok_iff] at hcontra
    omega
  · intro hl1 hl2 hc hd
    unfold mintWithSignature MAX_LEVEL at *
    split_ifs with h1 h2 h3 <;> first
      | rfl
      | omega
      | simp_all [errOf]

/-- Claim C1 witness: at a concrete input all five checks pass, the call
succeeds, and the success effects are observable. -/
theorem mintWithSignature_correct_witness :
    errOf (mintWithSignature cK cE 9 0 cState cA) = none ∧
    (applyMint cK cE 9 cState (0, cA)).usedNonces 3 = true ∧
    (applyMint cK cE 9 cState (0, cA)).completedLevels 1 1 = true ∧
    (applyMint cK cE 9 cState (0, cA)).ownerOf 0 = some 1 :=
  ⟨by decide,
   ((mintWithSignature_correct cK cE 9 0 cState cA).2.1 (by decide)).1,
   ((mintWithSignature_correct cK cE 9 0 cState cA).2.1 (by decide)).2.1,
   ((mintWithSignature_correct cK cE 9 0 cState cA).2.1 (by decide)).2.2.1⟩

/-- Claim C2 counterexample: after a successful mint consumed nonce 3, a later
call that presents nonce 3 with level 0 reverts with `InvalidLevel`, not
`NonceAlreadyUsed` — the revert reason is not independent of the level. -/
theorem nonce_reuse_error_counterexample :
    errOf (mintWithSignature cK cE 9 0 cState cA) = none ∧
    cB.nonce = cA.nonce ∧
    errOf (mintWithSignature cK cE 9 0 (applyMint cK cE 9 cState (0, cA)) cB) =
      some MintError.invalidLevel ∧
    MintError.invalidLevel ≠ MintError.nonceAlreadyUsed :=
  ⟨by decide, by decide, by decide, by decide⟩

/-- Claim C2 (amended): across any sequence of `mintWithSignature` calls, once
a call presenting nonce n has succeeded, every later call presenting n fails,
and it reverts with `NonceAlreadyUsed` whenever its level is in 1..7, its
caller has not completed its level, and the timestamp is at most its deadline
(otherwise the earlier check's error is reported instead). -/
theorem nonce_single_use (keccak : List Nat → Nat) (ecrecover : Nat → List Nat → Nat)
    (contractAddr t0 tb : Nat) (s0 : NFTState) (a b : MintArgs)
    (calls : List (Nat × MintArgs))
    (hok : errOf (mintWithSignature keccak ecrecover contractAddr t0 s0 a) = none)
    (hn : b.nonce = a.nonce) :
    errOf (mintWithSignature keccak ecrecover contractAddr tb
      (runMint keccak ecrecover contractAddr
        (applyMint keccak ecrecover contractAddr s0 (t0, a)) calls) b) ≠ none ∧
    (1 ≤ b.level → b.level ≤ MAX_LEVEL →
     (runMint keccak ecrecover contractAddr
       (applyMint keccak ecrecover contractAddr s0 (t0, a)) calls).completedLevels
         b.sender b.level = false →
     tb ≤ b.deadline →
     errOf (mintWithSignature keccak ecrecover contractAddr tb
       (runMint keccak ecrecover contractAddr
         (applyMint keccak ecrecover contractAddr s0 (t0, a)) calls) b) =
       some MintError.nonceAlreadyUsed) := by
  have h1 : (applyMint keccak ecrecover contractAddr s0 (t0, a)).usedNonces a.nonce = true := by
    rw [applyMint_of_ok hok]
    unfold mintSuccState
    simp [Function.update]
  have h2 : (runMint keccak ecrecover contractAddr
      (applyMint keccak ecrecover contractAddr s0 (t0, a)) calls).usedNonces b.nonce = true := by
    rw [hn]
    exact runMint_usedNonces_mono calls h1
  constructor
  · intro hcontra
    rw [mint_ok_iff] at hcontra
    rw [h2] at hcontra
    simp at hcontra
  · intro l1 l2 lc ld
    exact mint_usedNonce_error l1 l2 lc ld h2

/-- Claim C2 (amended) witness: a concrete successful mint with nonce 3
followed by a second call reusing nonce 3, which reverts with
`NonceAlreadyUsed`. -/
theorem nonce_single_use_witness :
    errOf (mintWithSignature cK cE 9 0 cState cA) = none ∧
    cB2.nonce = cA.nonce ∧
    (errOf (mintWithSignature cK cE 9 0
       (runMint cK cE 9 (applyMint cK cE 9 cState (0, cA)) []) cB2) ≠ none ∧
     (1 ≤ cB2.level → cB2.level ≤ MAX_LEVEL →
      (runMint cK cE 9 (applyMint cK cE 9 cState (0, cA)) []).completedLevels
        cB2.sender cB2.level = false →
      0 ≤ cB2.deadline →
      errOf (mintWithSignature cK cE 9 0
        (runMint cK cE 9 (applyMint cK cE 9 cState (0, cA)) []) cB2) =
        some MintError.nonceAlreadyUsed)) :=
  ⟨by decide, by decide,
   nonce_single_use cK cE 9 0 0 cState cA cB2 [] (by decide) (by decide)⟩

/-- Claim C4: after a successful `mintWithSignature` for (user, level), the
completion mark is true and stays true across any later sequence of calls,
and every later call by the same user for the same level reverts with
`AlreadyCompleted`. -/
theorem completed_level_once (keccak : List Nat → Nat) (ecrecover : Nat → List Nat → Nat)
    (contractAddr t0 tb : Nat) (s0 : NFTState) (a b : MintArgs)
    (calls : List (Nat × MintArgs))
    (hok : errOf (mintWithSignature keccak ecrecover contractAddr t0 s0 a) = none)
    (hs : b.sender = a.sender) (hl : b.level = a.level) :
    (runMint keccak ecrecover contractAddr
      (applyMint keccak ecrecover contractAddr s0 (t0, a)) calls).completedLevels
        a.sender a.level = true ∧
    errOf (mintWithSignature keccak ecrecover contractAddr tb
      (runMint keccak ecrecover contractAddr
        (applyMint keccak ecrecover contractAddr s0 (t0, a)) calls) b) =
      some MintError.alreadyCompleted := by
  have hrange := (mint_ok_iff keccak ecrecover contractAddr t0 s0 a).mp hok
  have h1 : (applyMint keccak ecrecover contractAddr s0
      (t0, a)).completedLevels a.sender a.level = true := by
    rw [applyMint_of_ok hok]
    unfold mintSuccState
    simp
  have h2 : (runMint keccak ecrecover contractAddr
      (applyMint keccak ecrecover contractAddr s0 (t0, a)) calls).completedLevels
        a.sender a.level = true :=
    runMint_completed_mono calls h1
  refine ⟨h2, ?_⟩
  have hb1 : 1 ≤ b.level := by omega
  have hb2 : b.level ≤ MAX_LEVEL := by omega
  refine mint_completed_error hb1 hb2 ?_
  rw [hs, hl]
  exact h2

/-- Claim C4 witness: a concrete successful mint for (user 1, level 1)
followed by a second call by user 1 for level 1 with a fresh nonce, which
reverts with `AlreadyCompleted`. -/
theorem completed_level_once_witness :
    errOf (mintWithSignature cK cE 9 0 cState cA) = none ∧
    cB3.sender = cA.sender ∧
    cB3.level = cA.level ∧
    ((runMint cK cE 9 (applyMint cK cE 9 cState (0, cA)) []).completedLevels
       cA.sender cA.level = true ∧
     errOf (mintWithSignature cK cE 9 0
       (runMint cK cE 9 (applyMint cK cE 9 cState (0, cA)) []) cB3) =
       some MintError.alreadyCompleted) :=
  ⟨by decide, by decide, by decide,
   completed_level_once cK cE 9 0 0 cState cA cB3 [] (by decide) (by decide) (by decide)⟩

/-- `toBytesBE w` always produces exactly `w` bytes. -/
theorem toBytesBE_length (w : Nat) : ∀ n, (toBytesBE w n).length = w := by
  induction w with
  | zero => intro n; rfl
  | succ w ih => intro n; simp [toBytesBE, ih]

/-- `toBytesBE w` is injective on values below `256 ^ w`. -/
theorem toBytesBE_inj (w : Nat) : ∀ n1 n2, n1 < 256 ^ w → n2 < 256 ^ w →
    toBytesBE w n1 = toBytesBE w n2 → n1 = n2 := by
  induction w with
  | zero =>
    intro n1 n2 h1 h2 _
    simp [pow_zero] at h1 h2
    omega
  | succ w ih =>
    intro n1 n2 h1 h2 h
    simp only [toBytesBE] at h
    obtain ⟨hhd, htl⟩ := List.append_inj h (by simp [toBytesBE_length])
    have e1 : n1 % 256 = n2 % 256 := by simpa using htl
    have hp : (256:Nat) ^ (w + 1) = 256 ^ w * 256 := pow_succ 256 w
    have hd1 : n1 / 256 < 256 ^ w := by omega
    have hd2 : n2 / 256 < 256 ^ w := by omega
    have e2 := ih (n1 / 256) (n2 / 256) hd1 hd2 hhd
    omega

/-- Splitting a concatenation at a fixed-width field boundary. -/
theorem fixedWidth_append_inj {w x y : Nat} {r1 r2 : List Nat}
    (h : toBytesBE w x ++ r1 = toBytesBE w y ++ r2) :
    toBytesBE w x = toBytesBE w y ∧ r1 = r2 :=
  List.append_inj h (by simp [toBytesBE_length])

/-- Claim C3: the hash the verifier checks is the keccak256 of the tight
concatenation, in fixed order, of caller address, level, nonce, deadline and
the contract's own address; that concatenation determines all five fields
(for in-range field values), so the signed message binds user and contract. -/
theorem mintMessageBytes_binds (keccak : List Nat → Nat) (ecrecover : Nat → List Nat → Nat)
    (contractAddr timestamp : Nat) (s : NFTState) (a : MintArgs)
    (s1 l1 n1 d1 c1 s2 l2 n2 d2 c2 : Nat)
    (hs1 : s1 < 2 ^ 160) (hc1 : c1 < 2 ^ 160)
    (hl1 : l1 < 2 ^ 256) (hn1 : n1 < 2 ^ 256) (hd1 : d1 < 2 ^ 256)
    (hs2 : s2 < 2 ^ 160) (hc2 : c2 < 2 ^ 160)
    (hl2 : l2 < 2 ^ 256) (hn2 : n2 < 2 ^ 256) (hd2 : d2 < 2 ^ 256) :
    (mintMessageBytes s1 l1 n1 d1 c1 = mintMessageBytes s2 l2 n2 d2 c2 →
      s1 = s2 ∧ l1 = l2 ∧ n1 = n2 ∧ d1 = d2 ∧ c1 = c2) ∧
    (errOf (mintWithSignature keccak ecrecover contractAddr timestamp s a) = none →
      ecrecover (keccak (ethMsgHeader ++ wordBytes
        (keccak (mintMessageBytes a.sender a.level a.nonce a.deadline contractAddr)))) a.sig
        = s.signer) := by
  constructor
  · intro h
    have e160 : (256:Nat) ^ 20 = 2 ^ 160 := by norm_num
    have e256 : (256:Nat) ^ 32 = 2 ^ 256 := by norm_num
    unfold mintMessageBytes addressBytes wordBytes at h
    obtain ⟨ha, h⟩ := fixedWidth_append_inj h
    obtain ⟨hb, h⟩ := fixedWidth_append_inj h
    obtain ⟨hc, h⟩ := fixedWidth_append_inj h
    obtain ⟨hd, he⟩ := fixedWidth_append_inj h
    exact ⟨toBytesBE_inj 20 _ _ (by omega) (by omega) ha,
      toBytesBE_inj 32 _ _ (by omega) (by omega) hb,
      toBytesBE_inj 32 _ _ (by omega) (by omega) hc,
      toBytesBE_inj 32 _ _ (by omega) (by omega) hd,
      toBytesBE_inj 20 _ _ (by omega) (by omega) he⟩
  · intro hok
    exact ((mint_ok_iff keccak ecrecover contractAddr timestamp s a).mp hok).2.2.2.2.2

/-- Claim C3 witness: the field-binding direction evaluated at concrete
in-range field values. -/
theorem mintMessageBytes_binds_witness :
    (1:Nat) < 2 ^ 160 ∧ (2:Nat) < 2 ^ 256 ∧
    ((1:Nat) = 1 ∧ (2:Nat) = 2 ∧ (3:Nat) = 3 ∧ (4:Nat) = 4 ∧ (5:Nat) = 5) :=
  ⟨by norm_num, by norm_num,
   (mintMessageBytes_binds cK cE 9 0 cState cA 1 2 3 4 5 1 2 3 4 5
     (by norm_num) (by norm_num) (by norm_num) (by norm_num) (by norm_num)
     (by norm_num) (by norm_num) (by norm_num) (by norm_num) (by norm_num)).1 rfl⟩

/-- `_processPurchase` never changes `priceSigner`. -/
theorem processPurchase_ok_priceSigner {contractAddr : Nat} {s s2 : HPState}
    {buyer level hintIndex amount : Nat}
    (h : processPurchase contractAddr s buyer level hintIndex amount = .ok s2) :
    s2.priceSigner = s.priceSigner := by
  unfold processPurchase at h
  split_ifs at h <;> simp_all
  rw [← h]

/-- `payForHint` never changes `priceSigner`. -/
theorem payForHint_ok_priceSigner {contractAddr : Nat} {s s2 : HPState}
    {sender level hintIndex : Nat}
    (h : payForHint contractAddr s sender level hintIndex = .ok s2) :
    s2.priceSigner = s.priceSigner := by
  unfold payForHint at h
  split_ifs at h <;> first
    | exact processPurchase_ok_priceSigner h
    | simp_all

/-- `payForHintWithNegotiatedPrice` never changes `priceSigner`. -/
theorem payNeg_ok_priceSigner {keccak : List Nat → Nat}
    {ecrecover4 : Nat → Nat → Nat → Nat → Nat} {contractAddr timestamp : Nat}
    {s s2 : HPState} {sender level hintIndex price deadline : Nat} {sig : List Nat}
    (h : payForHintWithNegotiatedPrice keccak ecrecover4 contractAddr timestamp s
      sender level hintIndex price deadline sig = .ok s2) :
    s2.priceSigner = s.priceSigner := by
  unfold payForHintWithNegotiatedPrice at h
  split_ifs at h <;> first
    | (rw [processPurchase_ok_priceSigner h])
    | simp_all

/-- `setHintPrices` never changes `priceSigner`. -/
theorem setHintPrices_ok_priceSigner {s s2 : HPState} {level p0 p1 p2 : Nat}
    (h : setHintPrices s level p0 p1 p2 = .ok s2) :
    s2.priceSigner = s.priceSigner := by
  unfold setHintPrices at h
  split_ifs at h <;> simp_all
  rw [← h]

/-- `setTreasury` never changes `priceSigner`. -/
theorem setTreasury_ok_priceSigner {s s2 : HPState} {a : Nat}
    (h : setTreasury s a = .ok s2) : s2.priceSigner = s.priceSigner := by
  unfold setTreasury at h
  split_ifs at h <;> simp_all
  rw [← h]

/-- `setPriceSigner` only ever installs a nonzero signer. -/
theorem setPriceSigner_ok_ne_zero {s s2 : HPState} {a : Nat}
    (h : setPriceSigner s a = .ok s2) : s2.priceSigner ≠ 0 := by
  unfold setPriceSigner at h
  split_ifs at h with h1 <;> simp_all
  rw [← h]
  exact h1

/-- `withdraw` never changes `priceSigner`. -/
theorem hpWithdraw_ok_priceSigner {contractAddr : Nat} {s s2 : HPState}
    (h : hpWithdraw contractAddr s = .ok s2) : s2.priceSigner = s.priceSigner := by
  unfold hpWithdraw at h
  split_ifs at h <;> simp_all
  rw [← h]

/-- Every transaction preserves nonzeroness of `priceSigner`. -/
theorem hpApply_priceSigner_ne_zero {keccak : List Nat → Nat}
    {ecrecover4 : Nat → Nat → Nat → Nat → Nat} {contractAddr : Nat} {s : HPState}
    (op : HPOp) (h : s.priceSigner ≠ 0) :
    (hpApply keccak ecrecover4 contractAddr s op).priceSigner ≠ 0 := by
  cases op with
  | pay t sender level hintIndex =>
    simp only [hpApply]
    unfold applyCall
    split
    · next s2 heq => rw [payForHint_ok_priceSigner heq]; exact h
    · exact h
  | payNeg t sender level hintIndex price deadline sig =>
    simp only [hpApply]
    unfold applyCall
    split
    · next s2 heq => rw [payNeg_ok_priceSigner heq]; exact h
    · exact h
  | setPrices level p0 p1 p2 =>
    simp only [hpApply]
    unfold applyCall
    split
    · next s2 heq => rw [setHintPrices_ok_priceSigner heq]; exact h
    · exact h
  | newTreasury a =>
    simp only [hpApply]
    unfold applyCall
    split
    · next s2 heq => rw [setTreasury_ok_priceSigner heq]; exact h
    · exact h
  | newPriceSigner a =>
    simp only [hpApply]
    unfold applyCall
    split
    · next s2 heq => exact setPriceSigner_ok_ne_zero heq
    · exact h
  | withdrawAll =>
    simp only [hpApply]
    unfold applyCall
    split
    · next s2 heq => rw [hpWithdraw_ok_priceSigner heq]; exact h
    · exact h

/-- Every reachable `HintPayment` state has a nonzero `priceSigner`. -/
theorem reachable_priceSigner_ne_zero {keccak : List Nat → Nat}
    {ecrecover4 : Nat → Nat → Nat → Nat → Nat} {contractAddr : Nat} {s : HPState}
    (h : HPReachable keccak ecrecover4 contractAddr s) : s.priceSigner ≠ 0 := by
  obtain ⟨pt, tr, ps, bal, s0, ops, hc, hrun⟩ := h
  have h0 : s0.priceSigner ≠ 0 := by
    unfold hpConstructor at hc
    split_ifs at hc with h1 h2 h3 <;> simp_all
    rw [← hc]
    exact h3
  subst hrun
  clear hc
  induction ops generalizing s0 with
  | nil => exact h0
  | cons op ops ih =>
    simp only [hpRun, List.foldl_cons] at *
    exact ih _ (hpApply_priceSigner_ne_zero op h0)

/-- A malformed signature always recovers address 0 in `_recover`. -/
theorem hpRecover_malformed {ecrecover4 : Nat → Nat → Nat → Nat → Nat} {hash : Nat}
    {sig : List Nat}
    (hmal : sig.length ≠ 65 ∨
      ((if sig.getD 64 0 < 27 then sig.getD 64 0 + 27 else sig.getD 64 0) ≠ 27 ∧
       (if sig.getD 64 0 < 27 then sig.getD 64 0 + 27 else sig.getD 64 0) ≠ 28)) :
    hpRecover ecrecover4 hash sig = 0 := by
  unfold hpRecover
  rcases hmal with h | h
  · rw [if_pos h]
  · by_cases h1 : sig.length ≠ 65
    · rw [if_pos h1]
    · rw [if_neg h1, if_pos h]

/-- Claim C7: a call with an out-of-range level (0 or above 7) reverts
immediately with `InvalidLevel` and leaves all state unchanged, for
`mintWithSignature`, `payForHint` and `payForHintWithNegotiatedPrice`. -/
theorem invalidLevel_no_effects (keccak : List Nat → Nat) (ecrecover : Nat → List Nat → Nat)
    (ecrecover4 : Nat → Nat → Nat → Nat → Nat) (contractAddr timestamp : Nat)
    (s : NFTState) (hp : HPState) (a : MintArgs)
    (sender level hintIndex price deadline : Nat) (sig : List Nat)
    (hbadA : a.level = 0 ∨ a.level > MAX_LEVEL)
    (hbad : level = 0 ∨ level > MAX_LEVEL) :
    errOf (mintWithSignature keccak ecrecover contractAddr timestamp s a) =
      some MintError.invalidLevel ∧
    applyMint keccak ecrecover contractAddr s (timestamp, a) = s ∧
    errOf (payForHint contractAddr hp sender level hintIndex) = some HPError.invalidLevel ∧
    errOf (payForHintWithNegotiatedPrice keccak ecrecover4 contractAddr timestamp hp
      sender level hintIndex price deadline sig) = some HPError.invalidLevel ∧
    hpApply keccak ecrecover4 contractAddr hp (.pay timestamp sender level hintIndex) = hp ∧
    hpApply keccak ecrecover4 contractAddr hp
      (.payNeg timestamp sender level hintIndex price deadline sig) = hp := by
  have hm : mintWithSignature keccak ecrecover contractAddr timestamp s a =
      .error .invalidLevel := by
    unfold mintWithSignature
    rw [if_pos hbadA]
  have hpay : payForHint contractAddr hp sender level hintIndex = .error .invalidLevel := by
    unfold payForHint
    rw [if_pos hbad]
  have hneg : payForHintWithNegotiatedPrice keccak ecrecover4 contractAddr timestamp hp
      sender level hintIndex price deadline sig = .error .invalidLevel := by
    unfold payForHintWithNegotiatedPrice
    rw [if_pos hbad]
  refine ⟨by rw [hm]; rfl, ?_, by rw [hpay]; rfl, by rw [hneg]; rfl, ?_, ?_⟩
  · unfold applyMint applyCall
    simp only
    rw [hm]
  · simp only [hpApply]
    unfold applyCall
    rw [hpay]
  · simp only [hpApply]
    unfold applyCall
    rw [hneg]

/-- Claim C7 witness: level 0 is rejected with `InvalidLevel` everywhere and
nothing changes. -/
theorem invalidLevel_no_effects_witness :
    (cB.level = 0 ∨ cB.level > MAX_LEVEL) ∧
    ((0:Nat) = 0 ∨ (0:Nat) > MAX_LEVEL) ∧
    (errOf (mintWithSignature cK cE 9 0 cState cB) = some MintError.invalidLevel ∧
     applyMint cK cE 9 cState (0, cB) = cState ∧
     errOf (payForHint 9 hpS0 1 0 0) = some HPError.invalidLevel ∧
     errOf (payForHintWithNegotiatedPrice cK cE4 9 0 hpS0 1 0 0 5 10 []) =
       some HPError.invalidLevel ∧
     hpApply cK cE4 9 hpS0 (.pay 0 1 0 0) = hpS0 ∧
     hpApply cK cE4 9 hpS0 (.payNeg 0 1 0 0 5 10 []) = hpS0) :=
  ⟨by decide, by decide,
   invalidLevel_no_effects cK cE cE4 9 0 cState hpS0 cB 1 0 0 5 10 []
     (by decide) (by decide)⟩

/-- Claim C10 counterexample: in a freshly deployed reachable state, a
malformed (3-byte) signature passed with level 0 makes
`payForHintWithNegotiatedPrice` revert with `InvalidLevel`, not
`InvalidSignature`. -/
theorem malformed_sig_error_counterexample :
    HPReachable cK cE4 9 hpS0 ∧
    ([1, 2, 3] : List Nat).length ≠ 65 ∧
    errOf (payForHintWithNegotiatedPrice cK cE4 9 0 hpS0 1 0 0 5 10 [1, 2, 3]) =
      some HPError.invalidLevel ∧
    HPError.invalidLevel ≠ HPError.invalidSignature :=
  ⟨⟨1, 2, 3, fun _ => 0, hpS0, [], rfl, rfl⟩, by decide, by decide, by decide⟩

/-- Claim C10 (amended): `_recover` is total and returns address 0 on every
malformed signature (length not 65, or adjusted recovery id not 27/28); every
reachable state has a nonzero `priceSigner`, so a malformed signature can
never make `payForHintWithNegotiatedPrice` succeed; it reverts, and with
`InvalidSignature` whenever the checks before signature verification pass. -/
theorem malformed_sig_never_accepted (keccak : List Nat → Nat)
    (ecrecover4 : Nat → Nat → Nat → Nat → Nat) (contractAddr timestamp : Nat)
    (s : HPState) (sender level hintIndex price deadline hash : Nat) (sig : List Nat)
    (hreach : HPReachable keccak ecrecover4 contractAddr s)
    (hmal : sig.length ≠ 65 ∨
      ((if sig.getD 64 0 < 27 then sig.getD 64 0 + 27 else sig.getD 64 0) ≠ 27 ∧
       (if sig.getD 64 0 < 27 then sig.getD 64 0 + 27 else sig.getD 64 0) ≠ 28)) :
    hpRecover ecrecover4 hash sig = 0 ∧
    s.priceSigner ≠ 0 ∧
    errOf (payForHintWithNegotiatedPrice keccak ecrecover4 contractAddr timestamp s
      sender level hintIndex price deadline sig) ≠ none ∧
    (1 ≤ level → level ≤ MAX_LEVEL → hintIndex < MAX_HINTS_PER_LEVEL →
     s.purchases sender level hintIndex = false → timestamp ≤ deadline →
     s.usedSignatures
       (keccak (hintMessageBytes sender level hintIndex price deadline contractAddr)) =
       false →
     errOf (payForHintWithNegotiatedPrice keccak ecrecover4 contractAddr timestamp s
       sender level hintIndex price deadline sig) = some HPError.invalidSignature) := by
  have hz : s.priceSigner ≠ 0 := reachable_priceSigner_ne_zero hreach
  have hr0 : ∀ h0 : Nat, hpRecover ecrecover4 h0 sig = 0 := fun h0 => hpRecover_malformed hmal
  refine ⟨hr0 hash, hz, ?_, ?_⟩
  · unfold payForHintWithNegotiatedPrice
    split_ifs with h1 h2 h3 h4 h5 h6 <;> try (intro hc; simp [errOf] at hc)
    · exact absurd (hr0 _) (by rw [not_not] at h6; rw [h6]; exact hz)
  · intro l1 l2 l3 l4 l5 l6
    unfold payForHintWithNegotiatedPrice MAX_LEVEL MAX_HINTS_PER_LEVEL at *
    split_ifs with h1 h2 h3 h4 h5 h6 <;> first
      | rfl
      | omega
      | simp_all
      | (exact absurd (hr0 _) (by rw [not_not] at h6; rw [h6]; exact hz))

/-- Claim C10 (amended) witness: a concrete malformed 3-byte signature in a
fresh deployment is rejected with `InvalidSignature` once the purchase
parameters are valid. -/
theorem malformed_sig_never_accepted_witness :
    HPReachable cK cE4 9 hpS0 ∧
    (([1, 2, 3] : List Nat).length ≠ 65 ∨
      ((if ([1, 2, 3] : List Nat).getD 64 0 < 27 then ([1, 2, 3] : List Nat).getD 64 0 + 27
        else ([1, 2, 3] : List Nat).getD 64 0) ≠ 27 ∧
       (if ([1, 2, 3] : List Nat).getD 64 0 < 27 then ([1, 2, 3] : List Nat).getD 64 0 + 27
        else ([1, 2, 3] : List Nat).getD 64 0) ≠ 28)) ∧
    (hpRecover cE4 0 [1, 2, 3] = 0 ∧
     hpS0.priceSigner ≠ 0 ∧
     errOf (payForHintWithNegotiatedPrice cK cE4 9 0 hpS0 1 2 0 5 10 [1, 2, 3]) ≠ none ∧
     (1 ≤ 2 → 2 ≤ MAX_LEVEL → 0 < MAX_HINTS_PER_LEVEL →
      hpS0.purchases 1 2 0 = false → 0 ≤ 10 →
      hpS0.usedSignatures (cK (hintMessageBytes 1 2 0 5 10 9)) = false →
      errOf (payForHintWithNegotiatedPrice cK cE4 9 0 hpS0 1 2 0 5 10 [1, 2, 3]) =
        some HPError.invalidSignature)) :=
  ⟨⟨1, 2, 3, fun _ => 0, hpS0, [], rfl, rfl⟩, by decide,
   malformed_sig_never_accepted cK cE4 9 0 hpS0 1 2 0 5 10 0 [1, 2, 3]
     ⟨1, 2, 3, fun _ => 0, hpS0, [], rfl, rfl⟩ (by decide)⟩

/-- Claim C8: the tier label bands levels exactly as 1-2 Bronze, 3-4 Silver,
5-6 Gold, 7 Platinum; `getTier` depends on the level number alone. -/
theorem getTier_bands :
    getTier 1 = "Bronze" ∧ getTier 2 = "Bronze" ∧ getTier 3 = "Silver" ∧
    getTier 4 = "Silver" ∧ getTier 5 = "Gold" ∧ getTier 6 = "Gold" ∧
    getTier 7 = "Platinum" :=
  ⟨rfl, rfl, rfl, rfl, rfl, rfl, rfl⟩

/-- `dedupFirstAux` preserves duplicate-freeness of the accumulator. -/
theorem dedupFirstAux_nodup : ∀ (l acc : List Int), acc.Nodup → (dedupFirstAux acc l).Nodup := by
  intro l
  induction l with
  | nil => intro acc h; exact h
  | cons v vs ih =>
    intro acc h
    unfold dedupFirstAux
    split_ifs with hv
    · exact ih acc h
    · exact ih (acc ++ [v]) (by simp [List.nodup_append, h, hv])

/-- Elements produced by `dedupFirstAux` come from the accumulator or the
input. -/
theorem dedupFirstAux_mem : ∀ (l acc : List Int) (x : Int),
    x ∈ dedupFirstAux acc l → x ∈ acc ∨ x ∈ l := by
  intro l
  induction l with
  | nil => intro acc x h; exact Or.inl h
  | cons v vs ih =>
    intro acc x h
    unfold dedupFirstAux at h
    split_ifs at h with hv
    · rcases ih acc x h with h1 | h1
      · exact Or.inl h1
      · exact Or.inr (List.mem_cons_of_mem v h1)
    · rcases ih (acc ++ [v]) x h with h1 | h1
      · rcases List.mem_append.mp h1 with h2 | h2
        · exact Or.inl h2
        · simp at h2
          exact Or.inr (by simp [h2])
      · exact Or.inr (List.mem_cons_of_mem v h1)

/-- A weakly sorted duplicate-free list is strictly sorted. -/
theorem sorted_lt_of_sorted_le_nodup : ∀ {l : List Int},
    l.Sorted (· ≤ ·) → l.Nodup → l.Sorted (· < ·) := by
  intro l
  induction l with
  | nil => intro _ _; simp
  | cons a t ih =>
    intro hs hn
    rw [List.sorted_cons] at hs ⊢
    rw [List.nodup_cons] at hn
    refine ⟨fun b hb => lt_of_le_of_ne (hs.1 b hb) fun heq => hn.1 (heq ▸ hb), ih hs.2 hn.2⟩

/-- `sortAsc` of a duplicate-free list satisfies the strict-sortedness and
membership facts needed for the frontend invariant. -/
theorem sortAsc_inv {l : List Int} (hn : l.Nodup) :
    (sortAsc l).Sorted (· < ·) ∧ ∀ x ∈ sortAsc l, x ∈ l := by
  have hperm : List.Perm (sortAsc l) l := List.perm_insertionSort _ l
  refine ⟨sorted_lt_of_sorted_le_nodup (List.sorted_insertionSort _ l)
    (hperm.nodup_iff.mpr hn), fun x hx => hperm.mem_iff.mp hx⟩

/-- Claim C9: the startup loader always produces a duplicate-free ascending
list of integers in `1..totalLevels`, and the success-path updater preserves
that invariant when inserting the current (in-range) level. -/
theorem completedLevels_invariant (raw : Option (List (Option Int))) (prev : List Int)
    (level : Int) (hprev : completedInv prev) (h1 : 1 ≤ level)
    (h7 : level ≤ (totalLevels : Int)) :
    completedInv (loadCompleted raw) ∧ completedInv (updateCompleted prev level) := by
  constructor
  · cases raw with
    | none => exact ⟨by simp [loadCompleted], by simp [loadCompleted]⟩
    | some parsed =>
      unfold loadCompleted completedInv
      have hn : (dedupFirst (parsed.filterMap (fun v => v.bind (fun n =>
          if 1 ≤ n ∧ n ≤ (totalLevels : Int) then some n else none)))).Nodup :=
        dedupFirstAux_nodup _ [] (by simp)
      obtain ⟨hsorted, hmem⟩ := sortAsc_inv hn
      refine ⟨hsorted, fun x hx => ?_⟩
      have hx2 := hmem x hx
      rcases dedupFirstAux_mem _ [] x hx2 with h | h
      · simp at h
      · obtain ⟨v, _, hv⟩ := List.mem_filterMap.mp h
        cases v with
        | none => simp at hv
        | some n =>
          simp only [Option.some_bind] at hv
          split_ifs at hv with hr
          simp at hv
          omega
  · unfold updateCompleted
    split_ifs with hmem
    · exact hprev
    · have hn : (prev ++ [level]).Nodup := by
        have hpn : prev.Nodup := hprev.1.imp ne_of_lt
        simp [List.nodup_append, hpn, hmem]
      obtain ⟨hsorted, hsub⟩ := sortAsc_inv hn
      refine ⟨hsorted, fun x hx => ?_⟩
      rcases List.mem_append.mp (hsub x hx) with h | h
      · exact hprev.2 x h
      · simp at h
        omega

/-- Claim C9 witness: a stored value with junk, duplicates, out-of-range
entries, and an update with level 4 both satisfy the invariant. -/
theorem completedLevels_invariant_witness :
    completedInv [2, 5] ∧ (1:Int) ≤ 4 ∧ (4:Int) ≤ (totalLevels : Int) ∧
    (completedInv (loadCompleted (some [some 3, none, some 3, some 9, some 1])) ∧
     completedInv (updateCompleted [2, 5] 4)) :=
  ⟨⟨by decide, by decide⟩, by decide, by decide,
   completedLevels_invariant (some [some 3, none, some 3, some 9, some 1]) [2, 5] 4
     ⟨by decide, by decide⟩ (by decide) (by decide)⟩

/-- Claim C5: for every in-range level and every secret registry, a guess
whose normalized form equals the sentinel keyword is judged correct
unconditionally. -/
theorem spark_override (secrets : Nat → List Char) (level : Nat) (guess : List Char)
    (h1 : 1 ≤ level) (h7 : level ≤ MAX_LEVEL)
    (hs : normalizeGuess guess = sparkWord) :
    verify_password secrets level guess = .ok true := by
  unfold verify_password MAX_LEVEL at *
  split_ifs with g1 g2 <;> first
    | rfl
    | omega
    | simp_all

/-- Claim C5 witness: " spark " (lowercase, padded) is judged correct at
level 5 even though the level's secret is "MAGIC". -/
theorem spark_override_witness :
    (1:Nat) ≤ 5 ∧ (5:Nat) ≤ MAX_LEVEL ∧
    normalizeGuess [' ', 's', 'p', 'a', 'r', 'k', ' '] = sparkWord ∧
    verify_password cSecrets 5 [' ', 's', 'p', 'a', 'r', 'k', ' '] = .ok true :=
  ⟨by decide, by decide, by decide,
   spark_override cSecrets 5 [' ', 's', 'p', 'a', 'r', 'k', ' ']
     (by decide) (by decide) (by decide)⟩

/-- Claim C6: for every in-range level, the verdict is exactly "normalized
guess equals the sentinel or equals the uppercase-normalized secret" (exact
match only), and any case variant of the secret (without surrounding
whitespace) is judged correct. -/
theorem judge_normalized_exact (secrets : Nat → List Char) (level : Nat) (guess : List Char)
    (h1 : 1 ≤ level) (h7 : level ≤ MAX_LEVEL) :
    verify_password secrets level guess =
      .ok ((normalizeGuess guess == sparkWord) ||
           (normalizeGuess guess == (secrets level).map upChar)) ∧
    (trimChars guess = guess → guess.map upChar = (secrets level).map upChar →
      verify_password secrets level guess = .ok true) := by
  constructor
  · unfold verify_password MAX_LEVEL at *
    split_ifs with g1 g2 g3 <;> first
      | omega
      | simp_all
  · intro ht hu
    have hnorm : normalizeGuess guess = (secrets level).map upChar := by
      unfold normalizeGuess
      rw [ht, hu]
    unfold verify_password MAX_LEVEL at *
    split_ifs <;> first
      | rfl
      | omega
      | simp_all

/-- Claim C6 witness: the lowercase spelling of the secret "MAGIC" is judged
correct at level 3, and the verdict equation evaluates concretely. -/
theorem judge_normalized_exact_witness :
    (1:Nat) ≤ 3 ∧ (3:Nat) ≤ MAX_LEVEL ∧
    (verify_password cSecrets 3 ['m', 'a', 'g', 'i', 'c'] =
      .ok ((normalizeGuess ['m', 'a', 'g', 'i', 'c'] == sparkWord) ||
           (normalizeGuess ['m', 'a', 'g', 'i', 'c'] == (cSecrets 3).map upChar)) ∧
     (trimChars ['m', 'a', 'g', 'i', 'c'] = ['m', 'a', 'g', 'i', 'c'] →
      (['m', 'a', 'g', 'i', 'c'] : List Char).map upChar = (cSecrets 3).map upChar →
      verify_password cSecrets 3 ['m', 'a', 'g', 'i', 'c'] = .ok true)) :=
  ⟨by decide, by decide,
   judge_normalized_exact cSecrets 3 ['m', 'a', 'g', 'i', 'c'] (by decide) (by decide)⟩

end SeedHunter
